import Mathlib

/-!
# EESREP rolling-horizon model-assembly engine: a verification development

This file gives a shallow embedding of the EESREP orchestrator
(`Eesrep` class: component registration, links, buses, time range,
rolling-horizon `solve`, `get_results`) and proves the specified
properties about it.

The concrete `eesrep` package sources are not part of the source tree at
hand (only the tutorial notebooks, the documentation and the test-runner
scripts are); the engine is therefore modelled from its specification,
with the recorded tutorial outputs (progress messages, result keys)
fixing the observable details.  Each such definition carries a
`Modelled from the spec:` doc comment.
-/

/-- Modelled from the spec: the `TimeSerieType` enum of `eesrep_enum.py`
(absent from the source tree): INTENSIVE values are rates averaged over a
time step, EXTENSIVE values are quantities integrated over the step. -/
inductive TimeSerieType where
  | intensive
  | extensive
deriving DecidableEq, Repr

/-- Modelled from the spec: the `ComponentIO` record of `eesrep_io.py`
(absent from the source tree), identifying one port:
`(component_name, io_name, kind, continuity)`.  Named `ComponentPort`
here. -/
structure ComponentPort where
  component_name : String
  io_name : String
  kind : TimeSerieType
  continuity : Bool
deriving DecidableEq, Repr

/-- Modelled from the spec: the generic component contract — a name, the
declared ports (`io_from_parameters`) and the component-specified default
history values used for continuity ports before the first horizon. -/
structure Component where
  name : String
  ios : List ComponentPort
  initial_values : List (String × ℚ)
deriving DecidableEq

/-- Modelled from the spec: a link `(io_1, io_2, factor, offset)` declared
through `add_link`, producing the constraint `io_2 = factor * io_1 + offset`
at every time step of every horizon. -/
structure Link where
  io_1 : ComponentPort
  io_2 : ComponentPort
  factor : ℚ
  offset : ℚ
deriving DecidableEq

/-- Modelled from the spec: a bus membership `(io, is_input, factor, offset)`
declared through `plug_to_bus`, attached to a named bus. -/
structure BusPlug where
  bus_name : String
  io : ComponentPort
  is_input : Bool
  factor : ℚ
  offset : ℚ
deriving DecidableEq

/-- Modelled from the spec: the time-range configuration given to
`define_time_range`:
`(time_step, time_shift, future_size, horizon_count)`. -/
structure TimeRange where
  time_step : ℚ
  time_shift : ℕ
  future_size : ℕ
  horizon_count : ℕ
deriving DecidableEq, Repr

/-- Validity of a time range: the three size parameters are positive,
`time_step` is a positive rational, and `time_shift ≤ future_size`
(a window cannot commit more steps than it solved). -/
def TimeRange.valid (tr : TimeRange) : Prop :=
  0 < tr.time_step ∧ 0 < tr.time_shift ∧ 0 < tr.future_size ∧
    0 < tr.horizon_count ∧ tr.time_shift ≤ tr.future_size

instance (tr : TimeRange) : Decidable tr.valid := by
  unfold TimeRange.valid
  exact inferInstance

/-- The executable validity check used at plan time. -/
def TimeRange.validB (tr : TimeRange) : Bool := decide tr.valid

theorem TimeRange.validB_iff (tr : TimeRange) : tr.validB = true ↔ tr.valid :=
  decide_eq_true_iff

/-- Total committed span of a valid configuration:
`time_shift * (horizon_count - 1) + future_size` steps. -/
def totalSteps (tr : TimeRange) : ℕ :=
  tr.time_shift * (tr.horizon_count - 1) + tr.future_size

/-- Modelled from the spec: a registration entry of the orchestrator's
`add_component`: a generic component, or a bus (buses are registered like
components but are kept apart by the orchestrator). -/
inductive RegEntry where
  | comp (c : Component)
  | bus (n : String)

/-- Modelled from the spec: the model orchestrator (`Eesrep` class, absent
from the source tree): registered components and buses, declared links,
bus memberships, and the time-range configuration. -/
structure Eesrep where
  registered : List RegEntry
  links : List Link
  bus_plugs : List BusPlug
  time_range : TimeRange

/-- The registered non-bus components, in declaration order. -/
def Eesrep.components (m : Eesrep) : List Component :=
  m.registered.filterMap fun e =>
    match e with
    | .comp c => some c
    | .bus _ => none

/-- The registered bus names, in declaration order. -/
def Eesrep.busNames (m : Eesrep) : List String :=
  m.registered.filterMap fun e =>
    match e with
    | .comp _ => none
    | .bus n => some n

/-- All registered names (components and buses), in declaration order. -/
def Eesrep.registeredNames (m : Eesrep) : List String :=
  m.registered.map fun e =>
    match e with
    | .comp c => c.name
    | .bus n => n

/-- Every port declared by some registered component. -/
def declaredPorts (m : Eesrep) : List ComponentPort :=
  m.components.flatMap fun c => c.ios

/-- The declared ports whose value must be carried across horizons. -/
def continuityPorts (m : Eesrep) : List ComponentPort :=
  (declaredPorts m).filter fun io => io.continuity

/-- The static validation pass of the link & bus resolver: every link end
and every bus-plugged port must be declared by some registered component. -/
def portsValid (m : Eesrep) : Bool :=
  (m.links.all fun l =>
     decide (l.io_1 ∈ declaredPorts m) && decide (l.io_2 ∈ declaredPorts m)) &&
  (m.bus_plugs.all fun p => decide (p.io ∈ declaredPorts m))

/-- A solved horizon, as the solver returns it: one value per port and
per local step index of the look-ahead window. -/
def Assignment : Type := ComponentPort → ℕ → ℚ

/-- The all-zero assignment, used as a fallback value. -/
def zeroAssign : Assignment := fun _ _ => 0

/-- Modelled from the spec: errors of the solver interface contract. -/
inductive SolveError where
  | infeasible
  | unbounded
deriving DecidableEq, Repr

/-- Modelled from the spec: the error kinds surfaced by `solve()`. -/
inductive EesrepError where
  | invalidTimeRange
  | unknownPort
  | infeasibleModel
  | unboundedModel
deriving DecidableEq, Repr

/-- Lift a solver-interface failure to the orchestrator's error kind. -/
def liftSolveError : SolveError → EesrepError
  | .infeasible => .infeasibleModel
  | .unbounded => .unboundedModel

/-- Modelled from the spec: what one horizon build hands to the solver
backend: the window start, the look-ahead size, and the history values for
the continuity ports. -/
structure HorizonInput where
  start : ℕ
  size : ℕ
  history : List (ComponentPort × ℚ)

/-- Modelled from the spec: the pluggable solver backend, which either
solves the horizon (returning a value for every port and local step) or
fails. -/
def Backend : Type := HorizonInput → Except SolveError Assignment

/-- The horizon input of horizon `k`: the window is
`[k * time_shift, k * time_shift + future_size)`. -/
def mkInput (tr : TimeRange) (k : ℕ) (h : List (ComponentPort × ℚ)) :
    HorizonInput :=
  { start := k * tr.time_shift, size := tr.future_size, history := h }

/-- Look a port up in a history map (first matching entry, 0 if absent). -/
def histLookup (h : List (ComponentPort × ℚ)) (io : ComponentPort) : ℚ :=
  match h.find? fun p => decide (p.1 = io) with
  | some p => p.2
  | none => 0

/-- Lookup of a component-specified default history value. -/
def defaultValue (m : Eesrep) (io : ComponentPort) : ℚ :=
  match m.components.find? fun c => decide (c.name = io.component_name) with
  | none => 0
  | some c =>
    match c.initial_values.find? fun p => decide (p.1 = io.io_name) with
    | none => 0
    | some p => p.2

/-- The history before the first horizon: component-specified defaults for
every continuity port. -/
def initialHistory (m : Eesrep) : List (ComponentPort × ℚ) :=
  (continuityPorts m).map fun io => (io, defaultValue m io)

/-- The history extracted after a horizon's commit: for every continuity
port, the value at local index `time_shift - 1` (the last kept step). -/
def historyFrom (m : Eesrep) (tr : TimeRange) (a : Assignment) :
    List (ComponentPort × ℚ) :=
  (continuityPorts m).map fun io => (io, a io (tr.time_shift - 1))

/-- The number of per-step decision variables one horizon build creates:
one per declared port and local step of the look-ahead window. -/
def varsPerHorizon (m : Eesrep) (tr : TimeRange) : ℕ :=
  (declaredPorts m).length * tr.future_size

/-- The progress message printed at horizon `k` (0-based). -/
def stepMessage (k : ℕ) : String :=
  if k = 0 then "Running first time step"
  else "Running time step " ++ toString (k + 1)

/-- The number of committed steps of horizon `k`: `time_shift` for every
horizon except the last, which commits the whole look-ahead window. -/
def commitSize (tr : TimeRange) (k : ℕ) : ℕ :=
  if k = tr.horizon_count - 1 then tr.future_size else tr.time_shift

/-- The solved horizons paired with their committed sizes, starting the
horizon numbering at `k`. -/
def commitChunks (tr : TimeRange) : List Assignment → ℕ → List (ℕ × Assignment)
  | [], _ => []
  | a :: rest, k => (commitSize tr k, a) :: commitChunks tr rest (k + 1)

/-- Concatenate, for one port, the committed prefix of every chunk. -/
def chunks (ps : List (ℕ × Assignment)) (io : ComponentPort) : List ℚ :=
  ps.flatMap fun p => (List.range p.1).map fun i => p.2 io i

/-- The committed result sequence of one port: for each solved horizon in
order, the values at local indices `[0, commitSize)`. -/
def ioResults (tr : TimeRange) (as : List Assignment) (io : ComponentPort) :
    List ℚ :=
  chunks (commitChunks tr as 0) io

/-- The outcome of a `solve()` call: the error (if any), the solved
horizons in order, the inputs each horizon build received, the printed
progress messages, and counters for created variables, backend calls and
validation passes. -/
structure SolveOutcome where
  error : Option EesrepError
  assignments : List Assignment
  inputs : List HorizonInput
  messages : List String
  vars_created : ℕ
  backend_calls : ℕ
  validation_passes : ℕ

/-- Modelled from the spec: the rolling-horizon scheduler loop (absent
from the source tree).  One iteration per horizon: run the static port
validation, build the model (creating the per-step variables), call the
backend, and on success commit and thread the history into the next
horizon. -/
def runLoop (m : Eesrep) (b : Backend) (tr : TimeRange) :
    ℕ → ℕ → List (ComponentPort × ℚ) → SolveOutcome
  | 0, _, _ =>
    { error := none, assignments := [], inputs := [], messages := [],
      vars_created := 0, backend_calls := 0, validation_passes := 0 }
  | n + 1, k, h =>
    if portsValid m then
      match b (mkInput tr k h) with
      | .error e =>
        { error := some (liftSolveError e), assignments := [],
          inputs := [mkInput tr k h], messages := [stepMessage k],
          vars_created := varsPerHorizon m tr, backend_calls := 1,
          validation_passes := 1 }
      | .ok a =>
        let rest := runLoop m b tr n (k + 1) (historyFrom m tr a)
        { error := rest.error, assignments := a :: rest.assignments,
          inputs := mkInput tr k h :: rest.inputs,
          messages := stepMessage k :: rest.messages,
          vars_created := varsPerHorizon m tr + rest.vars_created,
          backend_calls := 1 + rest.backend_calls,
          validation_passes := 1 + rest.validation_passes }
    else
      { error := some .unknownPort, assignments := [], inputs := [],
        messages := [], vars_created := 0, backend_calls := 0,
        validation_passes := 1 }

/-- Modelled from the spec: `Eesrep.solve()` — validate the time range at
plan time, then run the rolling-horizon loop over `horizon_count`
horizons. -/
def Eesrep.solve (m : Eesrep) (b : Backend) : SolveOutcome :=
  if m.time_range.validB then
    runLoop m b m.time_range m.time_range.horizon_count 0 (initialHistory m)
  else
    { error := some .invalidTimeRange, assignments := [], inputs := [],
      messages := [], vars_created := 0, backend_calls := 0,
      validation_passes := 0 }

/-- The history that `solve` threads into horizon `k`, as a direct
recursion: defaults before horizon 0, afterwards the extraction from
horizon `k - 1`'s solved assignment. -/
def histSeq (m : Eesrep) (b : Backend) (tr : TimeRange) :
    ℕ → List (ComponentPort × ℚ)
  | 0 => initialHistory m
  | k + 1 =>
    match b (mkInput tr k (histSeq m b tr k)) with
    | .ok a => historyFrom m tr a
    | .error _ => []

/-- The assignment the backend returns for horizon `k` (zero fallback on
failure). -/
def assignSeq (m : Eesrep) (b : Backend) (tr : TimeRange) (k : ℕ) :
    Assignment :=
  match b (mkInput tr k (histSeq m b tr k)) with
  | .ok a => a
  | .error _ => zeroAssign

/-- The committed value of a port at a committed global step. -/
def committedValue (m : Eesrep) (o : SolveOutcome) (io : ComponentPort)
    (t : ℕ) : ℚ :=
  (ioResults m.time_range o.assignments io).getD t 0

/-- The link constraint at one local step: `io_2 = factor * io_1 + offset`. -/
def SatLink (l : Link) (a : Assignment) (i : ℕ) : Prop :=
  a l.io_2 i = l.factor * a l.io_1 i + l.offset

/-- The member ports plugged into a bus as inputs, in declaration order. -/
def busInputs (m : Eesrep) (bus : String) : List BusPlug :=
  m.bus_plugs.filter fun p => decide (p.bus_name = bus) && p.is_input

/-- The member ports plugged into a bus as outputs, in declaration order. -/
def busOutputs (m : Eesrep) (bus : String) : List BusPlug :=
  m.bus_plugs.filter fun p => decide (p.bus_name = bus) && !p.is_input

/-- The bus balance constraint at one local step: the sum of the scaled
inputs equals the sum of the scaled outputs. -/
def SatBus (m : Eesrep) (bus : String) (a : Assignment) (i : ℕ) : Prop :=
  ((busInputs m bus).map fun p => p.factor * a p.io i + p.offset).sum =
  ((busOutputs m bus).map fun p => p.factor * a p.io i + p.offset).sum

/-- An assignment satisfies the coupling constraints the link & bus
resolver emitted for one horizon window. -/
def SatisfiesConstraints (m : Eesrep) (size : ℕ) (a : Assignment) : Prop :=
  (∀ l ∈ m.links, ∀ i < size, SatLink l a i) ∧
  (∀ bus ∈ m.busNames, ∀ i < size, SatBus m bus a i)

/-- The solver-interface contract: any assignment a backend returns
satisfies every constraint emitted for the window it was given. -/
def BackendSound (m : Eesrep) (b : Backend) : Prop :=
  ∀ inp a, b inp = Except.ok a → SatisfiesConstraints m inp.size a

/-- The committed time-index sequence exposed under the key `time`. -/
def timeIndices (tr : TimeRange) : List ℚ :=
  (List.range (totalSteps tr)).map fun i => (i : ℚ) * tr.time_step

/-- Modelled from the spec: the shape of `get_results(as_dataframe=False)`
— a per-component mapping of per-port value sequences, plus the `time`
key. -/
structure ResultsDict where
  per_component : List (String × List (String × List ℚ))
  time : List ℚ

/-- The keys of the results mapping: the per-component keys followed by the
extra `time` key. -/
def resultsKeys (r : ResultsDict) : List String :=
  (r.per_component.map fun p => p.1) ++ ["time"]

/-- The committed value sequence `get_results` exposes for one port. -/
def getResultsValues (m : Eesrep) (o : SolveOutcome) (io : ComponentPort) :
    List ℚ :=
  ioResults m.time_range o.assignments io

/-- Modelled from the spec: `get_results(as_dataframe=False)`.  The
recorded output of tutorial `use_2_three_components_model` shows that the
keys are the registered non-bus component names plus `time` (the
registered bus `bus` is absent). -/
def getResults (m : Eesrep) (o : SolveOutcome) : ResultsDict :=
  { per_component := m.components.map fun c =>
      (c.name, c.ios.map fun io => (io.io_name, getResultsValues m o io)),
    time := timeIndices m.time_range }

/-- Modelled from the spec: `get_results(as_dataframe=True)` — one flat
table whose columns are named `componentname_portname`. -/
def getResultsDf (m : Eesrep) (o : SolveOutcome) : List (String × List ℚ) :=
  m.components.flatMap fun c =>
    c.ios.map fun io => (c.name ++ "_" ++ io.io_name, getResultsValues m o io)

/-- The registered non-bus component names, in declaration order. -/
def nonBusNames (m : Eesrep) : List String :=
  m.registered.filterMap fun e =>
    match e with
    | .comp c => some c.name
    | .bus _ => none

/-- Total number of committed steps contributed by a chunk list. -/
def sizesSum (ps : List (ℕ × Assignment)) : ℕ :=
  (ps.map fun p => p.1).sum

/-- Locate a committed global index inside a chunk list: the chunk's
assignment together with the local index inside that chunk. -/
def pick (ps : List (ℕ × Assignment)) (t : ℕ) : Assignment × ℕ :=
  match ps with
  | [] => (zeroAssign, t)
  | p :: rest => if t < p.1 then (p.2, t) else pick rest (t - p.1)

/-- A backend that solves every horizon with the all-zero assignment. -/
def okBackend : Backend := fun _ => Except.ok zeroAssign

/-- A backend that reports every horizon as infeasible. -/
def failBackend : Backend := fun _ => Except.error SolveError.infeasible

/-- A generator port used by the concrete witness model. -/
def wOut : ComponentPort :=
  { component_name := "gen", io_name := "power_out",
    kind := TimeSerieType.intensive, continuity := false }

/-- A load port used by the concrete witness model. -/
def wIn : ComponentPort :=
  { component_name := "load", io_name := "power_in",
    kind := TimeSerieType.intensive, continuity := false }

/-- A storage-level continuity port used by the concrete witness model. -/
def wLevel : ComponentPort :=
  { component_name := "store", io_name := "level",
    kind := TimeSerieType.extensive, continuity := true }

/-- A concrete two-horizon model with one link, one balanced bus and one
continuity port, used to instantiate the theorems. -/
def wModel : Eesrep :=
  { registered :=
      [RegEntry.comp { name := "gen", ios := [wOut], initial_values := [] },
       RegEntry.comp { name := "load", ios := [wIn], initial_values := [] },
       RegEntry.comp { name := "store", ios := [wLevel],
                       initial_values := [("level", 7)] },
       RegEntry.bus "bus"],
    links := [{ io_1 := wOut, io_2 := wIn, factor := 1, offset := 0 }],
    bus_plugs :=
      [{ bus_name := "bus", io := wOut, is_input := true, factor := 1,
         offset := 0 },
       { bus_name := "bus", io := wIn, is_input := false, factor := 1,
         offset := 0 }],
    time_range :=
      { time_step := 1, time_shift := 2, future_size := 3,
        horizon_count := 2 } }

/-- A concrete model whose only link references a port no registered
component declares. -/
def wBadModel : Eesrep :=
  { registered :=
      [RegEntry.comp { name := "gen", ios := [wOut], initial_values := [] }],
    links :=
      [{ io_1 := wOut,
         io_2 := { component_name := "ghost", io_name := "power_out",
                   kind := TimeSerieType.intensive, continuity := false },
         factor := 1, offset := 0 }],
    bus_plugs := [],
    time_range :=
      { time_step := 1, time_shift := 2, future_size := 3,
        horizon_count := 2 } }

/-- A concrete model configured with `time_shift = 10 > future_size = 5`. -/
def wInvalidModel : Eesrep :=
  { registered :=
      [RegEntry.comp { name := "gen", ios := [wOut], initial_values := [] }],
    links := [], bus_plugs := [],
    time_range :=
      { time_step := 1, time_shift := 10, future_size := 5,
        horizon_count := 3 } }

/-- A port of the `use_2_three_components_model` tutorial model. -/
def u2Port (c io : String) : ComponentPort :=
  { component_name := c, io_name := io, kind := TimeSerieType.intensive,
    continuity := false }

/-- The model registered by the `use_2_three_components_model` tutorial:
five generic components plus the bus `bus`, the recorded result keys of
which omit `bus`. -/
def use2Model : Eesrep :=
  { registered :=
      [RegEntry.comp { name := "expensive_unit",
                       ios := [u2Port "expensive_unit" "power_out"],
                       initial_values := [] },
       RegEntry.comp { name := "fuel", ios := [u2Port "fuel" "power_out"],
                       initial_values := [] },
       RegEntry.comp { name := "cluster",
                       ios := [u2Port "cluster" "power_in",
                               u2Port "cluster" "power_out",
                               u2Port "cluster" "turn_on",
                               u2Port "cluster" "turn_off",
                               u2Port "cluster" "turn_on_count",
                               u2Port "cluster" "turn_off_count",
                               u2Port "cluster" "n_machine"],
                       initial_values := [] },
       RegEntry.comp { name := "load", ios := [u2Port "load" "power_in"],
                       initial_values := [] },
       RegEntry.comp { name := "price_cluster_on",
                       ios := [u2Port "price_cluster_on" "power_in"],
                       initial_values := [] },
       RegEntry.bus "bus"],
    links :=
      [{ io_1 := u2Port "fuel" "power_out", io_2 := u2Port "cluster" "power_in",
         factor := 1, offset := 0 },
       { io_1 := u2Port "cluster" "n_machine",
         io_2 := u2Port "price_cluster_on" "power_in",
         factor := 1, offset := 0 }],
    bus_plugs :=
      [{ bus_name := "bus", io := u2Port "expensive_unit" "power_out",
         is_input := true, factor := 1, offset := 0 },
       { bus_name := "bus", io := u2Port "cluster" "power_out",
         is_input := true, factor := 1, offset := 0 },
       { bus_name := "bus", io := u2Port "load" "power_in",
         is_input := false, factor := 1, offset := 0 }],
    time_range :=
      { time_step := 1, time_shift := 100, future_size := 100,
        horizon_count := 10 } }

/-! ## List-level helper lemmas -/

theorem getD_map_range {α : Type} (f : ℕ → α) (d : α) {j n : ℕ} (hj : j < n) :
    ((List.range n).map f).getD j d = f j := by
  have hlen : j < ((List.range n).map f).length := by simpa using hj
  rw [List.getD_eq_getElem _ _ hlen]
  simp

theorem sizesSum_nil : sizesSum [] = 0 := rfl

theorem sizesSum_cons (p : ℕ × Assignment) (ps : List (ℕ × Assignment)) :
    sizesSum (p :: ps) = p.1 + sizesSum ps := by
  simp [sizesSum]

theorem chunks_cons (p : ℕ × Assignment) (ps : List (ℕ × Assignment))
    (io : ComponentPort) :
    chunks (p :: ps) io =
      ((List.range p.1).map fun i => p.2 io i) ++ chunks ps io := by
  simp [chunks]

theorem chunks_length (ps : List (ℕ × Assignment)) (io : ComponentPort) :
    (chunks ps io).length = sizesSum ps := by
  induction ps with
  | nil => rfl
  | cons p ps ih =>
    rw [chunks_cons, sizesSum_cons, List.length_append, ih]
    simp

theorem chunks_getD (io : ComponentPort) :
    ∀ (ps : List (ℕ × Assignment)) (t : ℕ), t < sizesSum ps →
      (chunks ps io).getD t 0 = (pick ps t).1 io (pick ps t).2 := by
  intro ps
  induction ps with
  | nil => intro t ht; simp [sizesSum] at ht
  | cons p ps ih =>
    intro t ht
    rw [sizesSum_cons] at ht
    rw [chunks_cons]
    by_cases h : t < p.1
    · rw [List.getD_append _ _ _ _ (by simpa using h)]
      rw [getD_map_range _ _ h]
      simp [pick, h]
    · push_neg at h
      rw [List.getD_append_right _ _ _ _ (by simpa using h)]
      have hlen : ((List.range p.1).map fun i => p.2 io i).length = p.1 := by
        simp
      rw [hlen, ih (t - p.1) (by omega)]
      simp [pick, Nat.not_lt.mpr h]

theorem pick_mem :
    ∀ (ps : List (ℕ × Assignment)) (t : ℕ), t < sizesSum ps →
      ∃ p ∈ ps, (pick ps t).1 = p.2 ∧ (pick ps t).2 < p.1 := by
  intro ps
  induction ps with
  | nil => intro t ht; simp [sizesSum] at ht
  | cons p ps ih =>
    intro t ht
    rw [sizesSum_cons] at ht
    by_cases h : t < p.1
    · exact ⟨p, List.mem_cons_self _ _, by simp [pick, h], by simp [pick, h, h]⟩
    · push_neg at h
      obtain ⟨q, hq, hq1, hq2⟩ := ih (t - p.1) (by omega)
      exact ⟨q, List.mem_cons_of_mem _ hq,
        by simpa [pick, Nat.not_lt.mpr h] using hq1,
        by simpa [pick, Nat.not_lt.mpr h] using hq2⟩

/-! ## Commit-chunk lemmas -/

theorem commitChunks_sizes (tr : TimeRange) :
    ∀ (as : List Assignment) (k : ℕ),
      sizesSum (commitChunks tr as k) =
        ((List.range as.length).map fun j => commitSize tr (k + j)).sum := by
  intro as
  induction as with
  | nil => intro k; simp [commitChunks, sizesSum]
  | cons a as ih =>
    intro k
    rw [commitChunks, sizesSum_cons, ih (k + 1)]
    rw [List.length_cons, List.range_succ_eq_map]
    rw [List.map_cons, List.sum_cons, List.map_map]
    have hcongr :
        ((List.range as.length).map fun j => commitSize tr (k + 1 + j)) =
          (List.range as.length).map
            ((fun j => commitSize tr (k + j)) ∘ Nat.succ) := by
      refine List.map_congr_left ?_
      intro j _
      have : k + 1 + j = k + Nat.succ j := by omega
      simp [Function.comp, this]
    rw [hcongr]
    simp

theorem mem_commitChunks (tr : TimeRange) :
    ∀ (as : List Assignment) (k : ℕ) (p : ℕ × Assignment),
      p ∈ commitChunks tr as k →
        ∃ j < as.length, p = (commitSize tr (k + j), as.getD j zeroAssign) := by
  intro as
  induction as with
  | nil => intro k p hp; simp [commitChunks] at hp
  | cons a as ih =>
    intro k p hp
    rw [commitChunks] at hp
    rcases List.mem_cons.mp hp with h | h
    · exact ⟨0, by simp, by simpa using h⟩
    · obtain ⟨j, hj, hp⟩ := ih (k + 1) p h
      refine ⟨j + 1, by simpa using Nat.succ_lt_succ hj, ?_⟩
      have : k + 1 + j = k + (j + 1) := by omega
      rw [hp, this]
      simp

theorem sum_commitSize_uniform (tr : TimeRange) :
    ∀ j : ℕ, j ≤ tr.horizon_count - 1 →
      ((List.range j).map (commitSize tr)).sum = j * tr.time_shift := by
  intro j
  induction j with
  | zero => intro _; simp
  | succ j ih =>
    intro hj
    rw [List.range_succ, List.map_append, List.sum_append,
      ih (by omega)]
    have hne : j ≠ tr.horizon_count - 1 := by omega
    simp [commitSize, hne, Nat.succ_mul]

theorem sum_commitSize_range (tr : TimeRange) (hH : 0 < tr.horizon_count) :
    ((List.range tr.horizon_count).map (commitSize tr)).sum = totalSteps tr := by
  obtain ⟨n, hn⟩ : ∃ n, tr.horizon_count = n + 1 :=
    ⟨tr.horizon_count - 1, by omega⟩
  rw [hn, List.range_succ, List.map_append, List.sum_append]
  rw [sum_commitSize_uniform tr n (by omega)]
  have hlast : commitSize tr n = tr.future_size := by
    simp [commitSize, hn]
  simp only [List.map_cons, List.map_nil, List.sum_cons, List.sum_nil, hlast]
  unfold totalSteps
  rw [hn]
  simp [Nat.add_sub_cancel, Nat.mul_comm]

theorem chunks_getD_uniform (tr : TimeRange) (io : ComponentPort) :
    ∀ (as : List Assignment) (k j i : ℕ), j < as.length →
      i < commitSize tr (k + j) →
      (∀ j', j' < j → commitSize tr (k + j') = tr.time_shift) →
      (chunks (commitChunks tr as k) io).getD (j * tr.time_shift + i) 0 =
        (as.getD j zeroAssign) io i := by
  intro as
  induction as with
  | nil => intro k j i hj _ _; simp at hj
  | cons a as ih =>
    intro k j i hj hi huni
    cases j with
    | zero =>
      rw [commitChunks, chunks_cons]
      have hi0 : i < commitSize tr k := by simpa using hi
      rw [Nat.zero_mul, Nat.zero_add]
      rw [List.getD_append _ _ _ _ (by simpa using hi0)]
      rw [getD_map_range _ _ hi0]
      simp
    | succ j' =>
      have hk : commitSize tr k = tr.time_shift := by
        simpa using huni 0 (by omega)
      rw [commitChunks, chunks_cons]
      have hmul : (j' + 1) * tr.time_shift =
          j' * tr.time_shift + tr.time_shift := by ring
      have hge : tr.time_shift ≤ (j' + 1) * tr.time_shift + i := by
        omega
      rw [List.getD_append_right _ _ _ _ (by simpa [hk] using hge)]
      have hlen : ((List.range (commitSize tr k)).map fun i2 => a io i2).length =
          tr.time_shift := by simp [hk]
      rw [hlen]
      have hidx : (j' + 1) * tr.time_shift + i - tr.time_shift =
          j' * tr.time_shift + i := by
        omega
      rw [hidx]
      have hj' : j' < as.length := by simpa using Nat.lt_of_succ_lt_succ hj
      have hi' : i < commitSize tr (k + 1 + j') := by
        have : k + 1 + j' = k + (j' + 1) := by omega
        rw [this]
        exact hi
      have huni' : ∀ j'', j'' < j' → commitSize tr (k + 1 + j'') =
          tr.time_shift := by
        intro j'' hj''
        have : k + 1 + j'' = k + (j'' + 1) := by omega
        rw [this]
        exact huni (j'' + 1) (by omega)
      rw [ih (k + 1) j' i hj' hi' huni']
      simp

/-! ## History lookup lemma -/

theorem histLookup_map_self (f : ComponentPort → ℚ) :
    ∀ (l : List ComponentPort) (io : ComponentPort), io ∈ l →
      histLookup (l.map fun x => (x, f x)) io = f io := by
  intro l
  induction l with
  | nil => intro io hio; simp at hio
  | cons x xs ih =>
    intro io hio
    by_cases hx : x = io
    · subst hx
      unfold histLookup
      rw [List.map_cons, List.find?_cons_of_pos _ (by simp)]
    · have hio' : io ∈ xs := by
        rcases List.mem_cons.mp hio with h | h
        · exact absurd h.symm hx
        · exact h
      have hstep :
          ((x :: xs).map fun y => (y, f y)).find?
              (fun p => decide (p.1 = io)) =
            (xs.map fun y => (y, f y)).find? (fun p => decide (p.1 = io)) := by
        rw [List.map_cons, List.find?_cons_of_neg _ (by simp [hx])]
      unfold histLookup
      rw [hstep]
      have := ih io hio'
      unfold histLookup at this
      exact this

/-! ## Rolling-horizon loop lemmas -/

theorem runLoop_zero (m : Eesrep) (b : Backend) (tr : TimeRange) (k : ℕ)
    (h : List (ComponentPort × ℚ)) :
    runLoop m b tr 0 k h =
      { error := none, assignments := [], inputs := [], messages := [],
        vars_created := 0, backend_calls := 0, validation_passes := 0 } := rfl

theorem runLoop_step_ok {m : Eesrep} {b : Backend} {tr : TimeRange}
    {n k : ℕ} {h : List (ComponentPort × ℚ)} {a : Assignment}
    (hv : portsValid m = true) (hb : b (mkInput tr k h) = Except.ok a) :
    runLoop m b tr (n + 1) k h =
      { error := (runLoop m b tr n (k + 1) (historyFrom m tr a)).error,
        assignments :=
          a :: (runLoop m b tr n (k + 1) (historyFrom m tr a)).assignments,
        inputs :=
          mkInput tr k h ::
            (runLoop m b tr n (k + 1) (historyFrom m tr a)).inputs,
        messages :=
          stepMessage k ::
            (runLoop m b tr n (k + 1) (historyFrom m tr a)).messages,
        vars_created :=
          varsPerHorizon m tr +
            (runLoop m b tr n (k + 1) (historyFrom m tr a)).vars_created,
        backend_calls :=
          1 + (runLoop m b tr n (k + 1) (historyFrom m tr a)).backend_calls,
        validation_passes :=
          1 + (runLoop m b tr n (k + 1)
                (historyFrom m tr a)).validation_passes } := by
  rw [runLoop]
  simp only [hv, hb, if_true]

theorem runLoop_step_error {m : Eesrep} {b : Backend} {tr : TimeRange}
    {n k : ℕ} {h : List (ComponentPort × ℚ)} {e : SolveError}
    (hv : portsValid m = true) (hb : b (mkInput tr k h) = Except.error e) :
    runLoop m b tr (n + 1) k h =
      { error := some (liftSolveError e), assignments := [],
        inputs := [mkInput tr k h], messages := [stepMessage k],
        vars_created := varsPerHorizon m tr, backend_calls := 1,
        validation_passes := 1 } := by
  rw [runLoop]
  simp only [hv, hb, if_true]

theorem runLoop_invalid_ports {m : Eesrep} (b : Backend) (tr : TimeRange)
    {n k : ℕ} (h : List (ComponentPort × ℚ)) (hv : portsValid m = false) :
    runLoop m b tr (n + 1) k h =
      { error := some EesrepError.unknownPort, assignments := [], inputs := [],
        messages := [], vars_created := 0, backend_calls := 0,
        validation_passes := 1 } := by
  rw [runLoop]
  simp [hv]

theorem histSeq_succ {m : Eesrep} {b : Backend} {tr : TimeRange} {k : ℕ}
    {a : Assignment} (hb : b (mkInput tr k (histSeq m b tr k)) = Except.ok a) :
    histSeq m b tr (k + 1) = historyFrom m tr a := by
  rw [histSeq, hb]

theorem assignSeq_eq {m : Eesrep} {b : Backend} {tr : TimeRange} {k : ℕ}
    {a : Assignment} (hb : b (mkInput tr k (histSeq m b tr k)) = Except.ok a) :
    assignSeq m b tr k = a := by
  rw [assignSeq, hb]

theorem range_map_shift {α : Type} (f : ℕ → α) (k n : ℕ) :
    ((List.range (n + 1)).map fun j => f (k + j)) =
      f k :: ((List.range n).map fun j => f (k + 1 + j)) := by
  rw [List.range_succ_eq_map, List.map_cons, List.map_map]
  have h2 : ((List.range n).map ((fun j => f (k + j)) ∘ Nat.succ)) =
      ((List.range n).map fun j => f (k + 1 + j)) := by
    refine List.map_congr_left ?_
    intro j _
    simp only [Function.comp_apply]
    congr 1
    omega
  rw [h2]
  norm_num

theorem runLoop_success_spec (m : Eesrep) (b : Backend) (tr : TimeRange) :
    ∀ n k : ℕ, (runLoop m b tr n k (histSeq m b tr k)).error = none →
      (runLoop m b tr n k (histSeq m b tr k)).inputs =
        ((List.range n).map fun j => mkInput tr (k + j) (histSeq m b tr (k + j))) ∧
      (runLoop m b tr n k (histSeq m b tr k)).assignments =
        ((List.range n).map fun j => assignSeq m b tr (k + j)) ∧
      (runLoop m b tr n k (histSeq m b tr k)).messages =
        ((List.range n).map fun j => stepMessage (k + j)) ∧
      (∀ j, j < n → b (mkInput tr (k + j) (histSeq m b tr (k + j))) =
        Except.ok (assignSeq m b tr (k + j))) ∧
      (runLoop m b tr n k (histSeq m b tr k)).backend_calls = n ∧
      (runLoop m b tr n k (histSeq m b tr k)).validation_passes = n ∧
      (runLoop m b tr n k (histSeq m b tr k)).vars_created =
        n * varsPerHorizon m tr := by
  intro n
  induction n with
  | zero =>
    intro k h
    simp [runLoop_zero]
  | succ n ih =>
    intro k h
    by_cases hv : portsValid m = true
    · cases hb : b (mkInput tr k (histSeq m b tr k)) with
      | error e =>
        rw [runLoop_step_error hv hb] at h
        simp at h
      | ok a =>
        have hh := histSeq_succ hb
        have ha := assignSeq_eq hb
        rw [runLoop_step_ok hv hb] at h
        simp only at h
        rw [← hh] at h
        obtain ⟨h1, h2, h3, h4, h5, h6, h7⟩ := ih (k + 1) h
        rw [runLoop_step_ok hv hb]
        simp only
        rw [← hh, h1, h2, h3, h5, h6, h7]
        refine ⟨?_, ?_, ?_, ?_, by omega, by omega, by ring⟩
        · rw [range_map_shift (fun j => mkInput tr j (histSeq m b tr j)) k n]
        · rw [range_map_shift (fun j => assignSeq m b tr j) k n, ha]
        · rw [range_map_shift (fun j => stepMessage j) k n]
        · intro j hj
          cases j with
          | zero => simpa [ha] using hb
          | succ j' =>
            have : k + (j' + 1) = k + 1 + j' := by omega
            rw [this]
            exact h4 j' (by omega)
    · have hv' : portsValid m = false := by
        simpa using hv
      rw [runLoop_invalid_ports b tr _ hv'] at h
      simp at h

theorem runLoop_fail_spec (m : Eesrep) (b : Backend) (tr : TimeRange) :
    ∀ (n k : ℕ) (e : EesrepError),
      (runLoop m b tr n k (histSeq m b tr k)).error = some e →
      (e = EesrepError.infeasibleModel ∨ e = EesrepError.unboundedModel) →
      ∃ (j : ℕ) (se : SolveError), j < n ∧ liftSolveError se = e ∧
        (runLoop m b tr n k (histSeq m b tr k)).assignments =
          ((List.range j).map fun i => assignSeq m b tr (k + i)) ∧
        (runLoop m b tr n k (histSeq m b tr k)).backend_calls = j + 1 ∧
        (∀ i, i < j → b (mkInput tr (k + i) (histSeq m b tr (k + i))) =
          Except.ok (assignSeq m b tr (k + i))) ∧
        b (mkInput tr (k + j) (histSeq m b tr (k + j))) = Except.error se := by
  intro n
  induction n with
  | zero =>
    intro k e he _
    rw [runLoop_zero] at he
    simp at he
  | succ n ih =>
    intro k e he hee
    by_cases hv : portsValid m = true
    · cases hb : b (mkInput tr k (histSeq m b tr k)) with
      | error se =>
        rw [runLoop_step_error hv hb] at he
        simp only [Option.some.injEq] at he
        refine ⟨0, se, by omega, he, ?_, ?_, ?_, ?_⟩
        · rw [runLoop_step_error hv hb]
          simp
        · rw [runLoop_step_error hv hb]
        · intro i hi
          omega
        · simpa using hb
      | ok a =>
        have hh := histSeq_succ hb
        have ha := assignSeq_eq hb
        rw [runLoop_step_ok hv hb] at he
        simp only at he
        rw [← hh] at he
        obtain ⟨j, se, hj, hse, hassign, hcalls, hoks, hfail⟩ :=
          ih (k + 1) e he hee
        refine ⟨j + 1, se, by omega, hse, ?_, ?_, ?_, ?_⟩
        · rw [runLoop_step_ok hv hb]
          simp only
          rw [← hh, hassign, range_map_shift (fun i => assignSeq m b tr i) k j,
            ha]
        · rw [runLoop_step_ok hv hb]
          simp only
          rw [← hh, hcalls]
          omega
        · intro i hi
          cases i with
          | zero => simpa [ha] using hb
          | succ i' =>
            have harith : k + (i' + 1) = k + 1 + i' := by omega
            rw [harith]
            exact hoks i' (by omega)
        · have harith : k + (j + 1) = k + 1 + j := by omega
          rw [harith]
          exact hfail
    · have hv' : portsValid m = false := by simpa using hv
      rw [runLoop_invalid_ports b tr _ hv'] at he
      simp only [Option.some.injEq] at he
      rcases hee with h | h <;> rw [h] at he <;> exact absurd he.symm (by simp)

/-! ## Solve-level bridge lemmas -/

theorem solve_eq_runLoop {m : Eesrep} (b : Backend) (htr : m.time_range.valid) :
    m.solve b = runLoop m b m.time_range m.time_range.horizon_count 0
      (histSeq m b m.time_range 0) := by
  unfold Eesrep.solve
  rw [if_pos ((TimeRange.validB_iff m.time_range).mpr htr)]
  rfl

theorem solve_success_spec {m : Eesrep} {b : Backend} (htr : m.time_range.valid)
    (hs : (m.solve b).error = none) :
    (m.solve b).inputs =
      ((List.range m.time_range.horizon_count).map fun j =>
        mkInput m.time_range j (histSeq m b m.time_range j)) ∧
    (m.solve b).assignments =
      ((List.range m.time_range.horizon_count).map fun j =>
        assignSeq m b m.time_range j) ∧
    (m.solve b).messages =
      ((List.range m.time_range.horizon_count).map fun j => stepMessage j) ∧
    (∀ j, j < m.time_range.horizon_count →
      b (mkInput m.time_range j (histSeq m b m.time_range j)) =
        Except.ok (assignSeq m b m.time_range j)) ∧
    (m.solve b).backend_calls = m.time_range.horizon_count ∧
    (m.solve b).validation_passes = m.time_range.horizon_count ∧
    (m.solve b).vars_created =
      m.time_range.horizon_count * varsPerHorizon m m.time_range := by
  rw [solve_eq_runLoop b htr] at hs ⊢
  obtain ⟨h1, h2, h3, h4, h5, h6, h7⟩ :=
    runLoop_success_spec m b m.time_range m.time_range.horizon_count 0 hs
  simp only [Nat.zero_add] at h1 h2 h3 h4
  exact ⟨h1, h2, h3, h4, h5, h6, h7⟩

theorem ioResults_length_uniform (tr : TimeRange) (as : List Assignment)
    (j : ℕ) (hlen : as.length = j) (hj : j ≤ tr.horizon_count - 1)
    (io : ComponentPort) :
    (ioResults tr as io).length = j * tr.time_shift := by
  unfold ioResults
  rw [chunks_length, commitChunks_sizes, hlen]
  have hcongr : ((List.range j).map fun j2 => commitSize tr (0 + j2)) =
      (List.range j).map (commitSize tr) := by
    refine List.map_congr_left ?_
    intro j2 _
    rw [Nat.zero_add]
  rw [hcongr, sum_commitSize_uniform tr j hj]

theorem solve_results_length {m : Eesrep} {b : Backend}
    (htr : m.time_range.valid) (hs : (m.solve b).error = none)
    (io : ComponentPort) :
    (ioResults m.time_range (m.solve b).assignments io).length =
      totalSteps m.time_range := by
  obtain ⟨_, h2, _, _, _, _, _⟩ := solve_success_spec htr hs
  unfold ioResults
  rw [chunks_length, commitChunks_sizes, h2]
  have hlen : ((List.range m.time_range.horizon_count).map fun j =>
      assignSeq m b m.time_range j).length = m.time_range.horizon_count := by
    simp
  rw [hlen]
  have hcongr : ((List.range m.time_range.horizon_count).map fun j2 =>
      commitSize m.time_range (0 + j2)) =
      (List.range m.time_range.horizon_count).map (commitSize m.time_range) := by
    refine List.map_congr_left ?_
    intro j2 _
    rw [Nat.zero_add]
  rw [hcongr, sum_commitSize_range m.time_range htr.2.2.2.1]

theorem committed_pick_spec {m : Eesrep} {b : Backend}
    (htr : m.time_range.valid) (hs : (m.solve b).error = none)
    (t : ℕ) (ht : t < totalSteps m.time_range) :
    ∃ (a : Assignment) (i : ℕ), i < m.time_range.future_size ∧
      (∃ inp, b inp = Except.ok a ∧ inp.size = m.time_range.future_size) ∧
      ∀ io, committedValue m (m.solve b) io t = a io i := by
  obtain ⟨_, h2, _, h4, _, _, _⟩ := solve_success_spec htr hs
  have hlen : (m.solve b).assignments.length = m.time_range.horizon_count := by
    rw [h2]
    simp
  have hsum : sizesSum (commitChunks m.time_range (m.solve b).assignments 0) =
      totalSteps m.time_range := by
    rw [commitChunks_sizes, hlen]
    have hcongr : ((List.range m.time_range.horizon_count).map fun j2 =>
        commitSize m.time_range (0 + j2)) =
        (List.range m.time_range.horizon_count).map
          (commitSize m.time_range) := by
      refine List.map_congr_left ?_
      intro j2 _
      rw [Nat.zero_add]
    rw [hcongr, sum_commitSize_range m.time_range htr.2.2.2.1]
  have ht' : t < sizesSum (commitChunks m.time_range (m.solve b).assignments 0) := by
    rw [hsum]
    exact ht
  obtain ⟨p, hp, hp1, hp2⟩ :=
    pick_mem (commitChunks m.time_range (m.solve b).assignments 0) t ht'
  obtain ⟨j, hj, hpj⟩ := mem_commitChunks m.time_range _ 0 p hp
  rw [hlen] at hj
  have hgetD : (m.solve b).assignments.getD j zeroAssign =
      assignSeq m b m.time_range j := by
    rw [h2]
    exact getD_map_range _ _ hj
  have hsize : p.1 ≤ m.time_range.future_size := by
    rw [hpj]
    by_cases hc : j = m.time_range.horizon_count - 1 <;>
      simp [commitSize, hc, htr.2.2.2.2]
  refine ⟨assignSeq m b m.time_range j,
    (pick (commitChunks m.time_range (m.solve b).assignments 0) t).2,
    by omega, ⟨mkInput m.time_range j (histSeq m b m.time_range j), h4 j hj,
      rfl⟩, ?_⟩
  intro io
  unfold committedValue ioResults
  rw [chunks_getD io _ t ht', hp1, hpj]
  simp only
  rw [hgetD]

/-! ## Result-shape helper lemmas -/

theorem components_names (ms : List RegEntry) :
    ((ms.filterMap fun e =>
        match e with
        | .comp c => some c
        | .bus _ => none).map fun c => c.name) =
      ms.filterMap fun e =>
        match e with
        | .comp c => some c.name
        | .bus _ => none := by
  induction ms with
  | nil => rfl
  | cons e ms ih =>
    cases e with
    | comp c => simp [List.filterMap_cons, ih]
    | bus n => simp [List.filterMap_cons, ih]

/-! ## Claim theorems -/

/-- C1: for every valid `TimeRange` configuration and every declared port,
after a successful `solve()` the committed result sequence of that port
has length `time_shift * (horizon_count - 1) + future_size`, built from
`time_shift` committed entries per horizon except the last horizon, which
contributes `future_size` entries. -/
theorem claim1_results_length (m : Eesrep) (b : Backend)
    (htr : m.time_range.valid) (hs : (m.solve b).error = none)
    (io : ComponentPort) (_hio : io ∈ declaredPorts m) :
    (ioResults m.time_range (m.solve b).assignments io).length =
      m.time_range.time_shift * (m.time_range.horizon_count - 1) +
        m.time_range.future_size := by
  have h := solve_results_length htr hs io
  unfold totalSteps at h
  exact h

/-- Witness for C1: the concrete two-horizon model with
`time_shift = 2, future_size = 3, horizon_count = 2` commits `5` values
for the generator port. -/
theorem claim1_results_length_witness :
    (ioResults wModel.time_range (wModel.solve okBackend).assignments
        wOut).length = 5 := by
  have h := claim1_results_length wModel okBackend (by decide) (by decide)
    wOut (by decide)
  simpa using h

/-- C3: every configuration with `time_shift > future_size` is rejected at
plan time: `solve()` reports `InvalidTimeRangeError` with no variable
created, no backend call, no message printed and nothing committed. -/
theorem claim3_invalid_time_range (m : Eesrep) (b : Backend)
    (hts : m.time_range.future_size < m.time_range.time_shift) :
    (m.solve b).error = some EesrepError.invalidTimeRange ∧
    (m.solve b).assignments = [] ∧ (m.solve b).inputs = [] ∧
    (m.solve b).messages = [] ∧ (m.solve b).vars_created = 0 ∧
    (m.solve b).backend_calls = 0 ∧ (m.solve b).validation_passes = 0 := by
  have hinv : ¬ m.time_range.valid := by
    unfold TimeRange.valid
    intro hv
    rcases hv with ⟨_, _, _, _, h5⟩
    omega
  unfold Eesrep.solve
  rw [if_neg fun hh => hinv ((TimeRange.validB_iff m.time_range).mp hh)]
  exact ⟨rfl, rfl, rfl, rfl, rfl, rfl, rfl⟩

/-- Witness for C3: a model configured with
`time_shift = 10, future_size = 5` aborts with `InvalidTimeRangeError`
and zero variables. -/
theorem claim3_invalid_time_range_witness :
    (wInvalidModel.solve okBackend).error =
        some EesrepError.invalidTimeRange ∧
    (wInvalidModel.solve okBackend).assignments = [] ∧
    (wInvalidModel.solve okBackend).inputs = [] ∧
    (wInvalidModel.solve okBackend).messages = [] ∧
    (wInvalidModel.solve okBackend).vars_created = 0 ∧
    (wInvalidModel.solve okBackend).backend_calls = 0 ∧
    (wInvalidModel.solve okBackend).validation_passes = 0 :=
  claim3_invalid_time_range wInvalidModel okBackend (by decide)

/-- C8: the solve pipeline is deterministic — two `solve()` runs from the
same model state with the same backend produce identical outcomes and
identical results. -/
theorem claim8_deterministic (m : Eesrep) (b1 b2 : Backend) (h : b1 = b2) :
    m.solve b1 = m.solve b2 ∧
    getResults m (m.solve b1) = getResults m (m.solve b2) := by
  subst h
  exact ⟨rfl, rfl⟩

/-- Witness for C8: two runs of the concrete model with the same backend
agree. -/
theorem claim8_deterministic_witness :
    wModel.solve okBackend = wModel.solve okBackend ∧
    getResults wModel (wModel.solve okBackend) =
      getResults wModel (wModel.solve okBackend) :=
  claim8_deterministic wModel okBackend okBackend rfl

/-- C10: a `solve()` on a validly configured model runs exactly
`horizon_count` sequential horizon iterations, printing
`Running first time step` for the first horizon and `Running time step k`
for each subsequent horizon `k = 2 .. horizon_count`, with one backend
call per iteration. -/
theorem claim10_messages (m : Eesrep) (b : Backend)
    (htr : m.time_range.valid) (hs : (m.solve b).error = none) :
    (m.solve b).messages =
      "Running first time step" ::
        ((List.range (m.time_range.horizon_count - 1)).map fun j =>
          "Running time step " ++ toString (j + 2)) ∧
    (m.solve b).messages.length = m.time_range.horizon_count ∧
    (m.solve b).backend_calls = m.time_range.horizon_count := by
  obtain ⟨_, _, h3, _, h5, _, _⟩ := solve_success_spec htr hs
  refine ⟨?_, ?_, h5⟩
  · rw [h3]
    obtain ⟨n, hn⟩ : ∃ n, m.time_range.horizon_count = n + 1 :=
      ⟨m.time_range.horizon_count - 1, by
        have := htr.2.2.2.1
        omega⟩
    rw [hn, List.range_succ_eq_map, List.map_cons, List.map_map]
    have hhead : stepMessage 0 = "Running first time step" := rfl
    have htail : (List.range n).map (stepMessage ∘ Nat.succ) =
        (List.range n).map fun j => "Running time step " ++ toString (j + 2) := by
      refine List.map_congr_left ?_
      intro j _
      simp only [Function.comp_apply, stepMessage]
      rw [if_neg (Nat.succ_ne_zero j)]
    rw [hhead, htail]
    norm_num
  · rw [h3]
    simp

/-- Witness for C10: the concrete two-horizon model prints
`Running first time step` then `Running time step 2`. -/
theorem claim10_messages_witness :
    (wModel.solve okBackend).messages =
      "Running first time step" ::
        ((List.range (wModel.time_range.horizon_count - 1)).map fun j =>
          "Running time step " ++ toString (j + 2)) ∧
    (wModel.solve okBackend).messages.length =
      wModel.time_range.horizon_count ∧
    (wModel.solve okBackend).backend_calls =
      wModel.time_range.horizon_count :=
  claim10_messages wModel okBackend (by decide) (by decide)

/-- C6: a model with a link or bus membership referencing a port no
registered component declares fails with `UnknownPortError` before any
backend call and with zero solver variables created; in a successful run
the validation pass is executed once per horizon build. -/
theorem claim6_unknown_port (m : Eesrep) (b : Backend)
    (htr : m.time_range.valid) :
    (portsValid m = false →
      (m.solve b).error = some EesrepError.unknownPort ∧
      (m.solve b).backend_calls = 0 ∧ (m.solve b).vars_created = 0 ∧
      (m.solve b).assignments = []) ∧
    ((m.solve b).error = none →
      (m.solve b).validation_passes = m.time_range.horizon_count) := by
  constructor
  · intro hv
    rw [solve_eq_runLoop b htr]
    obtain ⟨n, hn⟩ : ∃ n, m.time_range.horizon_count = n + 1 :=
      ⟨m.time_range.horizon_count - 1, by
        have := htr.2.2.2.1
        omega⟩
    rw [hn, runLoop_invalid_ports b m.time_range _ hv]
    exact ⟨rfl, rfl, rfl, rfl⟩
  · intro hs
    exact (solve_success_spec htr hs).2.2.2.2.2.1

/-- Witness for C6: the model whose link targets the undeclared port
`ghost.power_out` aborts with `UnknownPortError`, zero backend calls and
zero variables. -/
theorem claim6_unknown_port_witness :
    (wBadModel.solve okBackend).error = some EesrepError.unknownPort ∧
    (wBadModel.solve okBackend).backend_calls = 0 ∧
    (wBadModel.solve okBackend).vars_created = 0 ∧
    (wBadModel.solve okBackend).assignments = [] :=
  (claim6_unknown_port wBadModel okBackend (by decide)).1 (by decide)

/-- C7: if the backend fails on horizon `j` with an infeasible or
unbounded report, `solve()` aborts with exactly one backend call for the
failing horizon (no retry), commits nothing for horizon `j`, and the
results of the `j` previously solved horizons remain committed and
retrievable through `get_results`. -/
theorem claim7_solver_failure (m : Eesrep) (b : Backend)
    (htr : m.time_range.valid) (e : EesrepError)
    (he : (m.solve b).error = some e)
    (hee : e = EesrepError.infeasibleModel ∨ e = EesrepError.unboundedModel) :
    ∃ j : ℕ, j < m.time_range.horizon_count ∧
      (m.solve b).assignments =
        ((List.range j).map fun i => assignSeq m b m.time_range i) ∧
      (m.solve b).backend_calls = j + 1 ∧
      (∀ i, i < j → b (mkInput m.time_range i (histSeq m b m.time_range i)) =
        Except.ok (assignSeq m b m.time_range i)) ∧
      (∃ se, liftSolveError se = e ∧
        b (mkInput m.time_range j (histSeq m b m.time_range j)) =
          Except.error se) ∧
      (∀ io, (getResultsValues m (m.solve b) io).length =
        j * m.time_range.time_shift) := by
  rw [solve_eq_runLoop b htr] at he ⊢
  obtain ⟨j, se, hj, hse, hassign, hcalls, hoks, hfail⟩ :=
    runLoop_fail_spec m b m.time_range m.time_range.horizon_count 0 e he hee
  simp only [Nat.zero_add] at hassign hoks hfail
  refine ⟨j, hj, hassign, hcalls, hoks, ⟨se, hse, hfail⟩, ?_⟩
  intro io
  unfold getResultsValues
  refine ioResults_length_uniform m.time_range _ j ?_ ?_ io
  · rw [hassign]
    simp
  · have := htr.2.2.2.1
    omega

/-- Witness for C7: the concrete model under the always-infeasible backend
aborts on the first horizon with nothing committed. -/
theorem claim7_solver_failure_witness :
    ∃ j : ℕ, j < wModel.time_range.horizon_count ∧
      (wModel.solve failBackend).assignments =
        ((List.range j).map fun i =>
          assignSeq wModel failBackend wModel.time_range i) ∧
      (wModel.solve failBackend).backend_calls = j + 1 ∧
      (∀ i, i < j →
        failBackend (mkInput wModel.time_range i
          (histSeq wModel failBackend wModel.time_range i)) =
          Except.ok (assignSeq wModel failBackend wModel.time_range i)) ∧
      (∃ se, liftSolveError se = EesrepError.infeasibleModel ∧
        failBackend (mkInput wModel.time_range j
          (histSeq wModel failBackend wModel.time_range j)) =
          Except.error se) ∧
      (∀ io, (getResultsValues wModel (wModel.solve failBackend) io).length =
        j * wModel.time_range.time_shift) :=
  claim7_solver_failure wModel failBackend (by decide)
    EesrepError.infeasibleModel (by decide) (Or.inl rfl)

/-- C2: for every horizon `k > 0` and every continuity port, the history
value supplied to horizon `k`'s build equals the value committed at local
index `time_shift - 1` of horizon `k - 1`'s solved result (the last kept
step); for `k = 0` continuity ports receive the component-specified
defaults. -/
theorem claim2_continuity (m : Eesrep) (b : Backend)
    (htr : m.time_range.valid) (hs : (m.solve b).error = none)
    (k : ℕ) (hk : k < m.time_range.horizon_count) (io : ComponentPort)
    (hio : io ∈ continuityPorts m) :
    (k = 0 →
      histLookup ((m.solve b).inputs.getD 0
          (mkInput m.time_range 0 [])).history io = defaultValue m io) ∧
    (0 < k →
      histLookup ((m.solve b).inputs.getD k
          (mkInput m.time_range 0 [])).history io =
        committedValue m (m.solve b) io
          ((k - 1) * m.time_range.time_shift +
            (m.time_range.time_shift - 1))) := by
  obtain ⟨h1, h2, _, h4, _, _, _⟩ := solve_success_spec htr hs
  have hinputk : (m.solve b).inputs.getD k (mkInput m.time_range 0 []) =
      mkInput m.time_range k (histSeq m b m.time_range k) := by
    rw [h1]
    exact getD_map_range _ _ hk
  constructor
  · intro hk0
    subst hk0
    rw [hinputk]
    exact histLookup_map_self (defaultValue m) (continuityPorts m) io hio
  · intro hkpos
    obtain ⟨k', rfl⟩ : ∃ k', k = k' + 1 := ⟨k - 1, by omega⟩
    rw [hinputk]
    have hb := h4 k' (by omega)
    have hh := histSeq_succ hb
    have hL : histLookup (histSeq m b m.time_range (k' + 1)) io =
        assignSeq m b m.time_range k' io (m.time_range.time_shift - 1) := by
      rw [hh]
      unfold historyFrom
      exact histLookup_map_self _ (continuityPorts m) io hio
    have hR : committedValue m (m.solve b) io
        ((k' + 1 - 1) * m.time_range.time_shift +
          (m.time_range.time_shift - 1)) =
        assignSeq m b m.time_range k' io (m.time_range.time_shift - 1) := by
      have hsub : k' + 1 - 1 = k' := by omega
      rw [hsub]
      unfold committedValue ioResults
      have hklt : k' < (m.solve b).assignments.length := by
        rw [h2]
        simp
        omega
      have hcs : ∀ j', j' < k' →
          commitSize m.time_range (0 + j') = m.time_range.time_shift := by
        intro j' hj'
        have hne : j' ≠ m.time_range.horizon_count - 1 := by omega
        simp [commitSize, hne]
      have hi : m.time_range.time_shift - 1 <
          commitSize m.time_range (0 + k') := by
        have hne : k' ≠ m.time_range.horizon_count - 1 := by omega
        have hts := htr.2.1
        simp [commitSize, hne]
        omega
      rw [chunks_getD_uniform m.time_range io _ 0 k' _ hklt hi hcs]
      rw [h2, getD_map_range _ _ (by omega)]
    rw [hR]
    exact hL

/-- Witness for C2: in the concrete two-horizon model, the history for the
storage-level continuity port at horizon `1` equals the value committed at
local index `time_shift - 1` of horizon `0`. -/
theorem claim2_continuity_witness :
    (1 = 0 →
      histLookup ((wModel.solve okBackend).inputs.getD 0
          (mkInput wModel.time_range 0 [])).history wLevel =
        defaultValue wModel wLevel) ∧
    (0 < 1 →
      histLookup ((wModel.solve okBackend).inputs.getD 1
          (mkInput wModel.time_range 0 [])).history wLevel =
        committedValue wModel (wModel.solve okBackend) wLevel
          ((1 - 1) * wModel.time_range.time_shift +
            (wModel.time_range.time_shift - 1))) :=
  claim2_continuity wModel okBackend (by decide) (by decide) 1 (by decide)
    wLevel (by decide)

/-- C4: for every bus and every committed time step of a successful solve
with a contract-abiding backend, the sum of the bus's scaled input values
equals the sum of its scaled output values. -/
theorem claim4_bus_balance (m : Eesrep) (b : Backend)
    (htr : m.time_range.valid) (hsound : BackendSound m b)
    (hs : (m.solve b).error = none) (bus : String)
    (hbus : bus ∈ m.busNames) (t : ℕ) (ht : t < totalSteps m.time_range) :
    ((busInputs m bus).map fun p =>
        p.factor * committedValue m (m.solve b) p.io t + p.offset).sum =
    ((busOutputs m bus).map fun p =>
        p.factor * committedValue m (m.solve b) p.io t + p.offset).sum := by
  obtain ⟨a, i, hi, ⟨inp, hinp, hsize⟩, hval⟩ := committed_pick_spec htr hs t ht
  have hsat := hsound inp a hinp
  rw [hsize] at hsat
  have hbusSat := hsat.2 bus hbus i hi
  unfold SatBus at hbusSat
  have hIn : ((busInputs m bus).map fun p =>
      p.factor * committedValue m (m.solve b) p.io t + p.offset) =
      (busInputs m bus).map fun p => p.factor * a p.io i + p.offset := by
    refine List.map_congr_left ?_
    intro p _
    rw [hval p.io]
  have hOut : ((busOutputs m bus).map fun p =>
      p.factor * committedValue m (m.solve b) p.io t + p.offset) =
      (busOutputs m bus).map fun p => p.factor * a p.io i + p.offset := by
    refine List.map_congr_left ?_
    intro p _
    rw [hval p.io]
  rw [hIn, hOut]
  exact hbusSat

/-- Witness for C4: the concrete model's bus balances at committed step 0
under the zero backend. -/
theorem claim4_bus_balance_witness :
    ((busInputs wModel "bus").map fun p =>
        p.factor * committedValue wModel (wModel.solve okBackend) p.io 0 +
          p.offset).sum =
    ((busOutputs wModel "bus").map fun p =>
        p.factor * committedValue wModel (wModel.solve okBackend) p.io 0 +
          p.offset).sum := by
  refine claim4_bus_balance wModel okBackend (by decide) ?_ (by decide) "bus"
    (by decide) 0 (by decide)
  intro inp a ha
  have haz : zeroAssign = a := by simpa [okBackend] using ha
  subst haz
  constructor
  · intro l hl i hi
    have hlinks : wModel.links =
        [{ io_1 := wOut, io_2 := wIn, factor := 1, offset := 0 }] := by decide
    rw [hlinks] at hl
    have hl' : l = { io_1 := wOut, io_2 := wIn, factor := 1, offset := 0 } := by
      simpa using hl
    subst hl'
    unfold SatLink zeroAssign
    norm_num
  · intro bus hbus i hi
    have hnames : wModel.busNames = ["bus"] := by decide
    rw [hnames] at hbus
    have hb' : bus = "bus" := by simpa using hbus
    subst hb'
    unfold SatBus
    have hin : busInputs wModel "bus" =
        [{ bus_name := "bus", io := wOut, is_input := true, factor := 1,
           offset := 0 }] := by decide
    have hout : busOutputs wModel "bus" =
        [{ bus_name := "bus", io := wIn, is_input := false, factor := 1,
           offset := 0 }] := by decide
    rw [hin, hout]
    unfold zeroAssign
    norm_num

/-- C5: for every declared link and every committed time step of a
successful solve with a contract-abiding backend, the committed value of
`io_2` equals `factor * value(io_1) + offset`. -/
theorem claim5_link_equality (m : Eesrep) (b : Backend)
    (htr : m.time_range.valid) (hsound : BackendSound m b)
    (hs : (m.solve b).error = none) (l : Link) (hl : l ∈ m.links)
    (t : ℕ) (ht : t < totalSteps m.time_range) :
    committedValue m (m.solve b) l.io_2 t =
      l.factor * committedValue m (m.solve b) l.io_1 t + l.offset := by
  obtain ⟨a, i, hi, ⟨inp, hinp, hsize⟩, hval⟩ := committed_pick_spec htr hs t ht
  have hsat := hsound inp a hinp
  rw [hsize] at hsat
  have hlinkSat := hsat.1 l hl i hi
  unfold SatLink at hlinkSat
  rw [hval l.io_2, hval l.io_1]
  exact hlinkSat

/-- Witness for C5: the concrete model's link holds at committed step 1
under the zero backend. -/
theorem claim5_link_equality_witness :
    committedValue wModel (wModel.solve okBackend)
        ({ io_1 := wOut, io_2 := wIn, factor := 1, offset := 0 } : Link).io_2
        1 =
      ({ io_1 := wOut, io_2 := wIn, factor := 1, offset := 0 } : Link).factor *
        committedValue wModel (wModel.solve okBackend)
          ({ io_1 := wOut, io_2 := wIn, factor := 1,
             offset := 0 } : Link).io_1 1 +
        ({ io_1 := wOut, io_2 := wIn, factor := 1, offset := 0 } : Link).offset := by
  refine claim5_link_equality wModel okBackend (by decide) ?_ (by decide)
    { io_1 := wOut, io_2 := wIn, factor := 1, offset := 0 } (by decide) 1
    (by decide)
  intro inp a ha
  have haz : zeroAssign = a := by simpa [okBackend] using ha
  subst haz
  constructor
  · intro l hl i hi
    have hlinks : wModel.links =
        [{ io_1 := wOut, io_2 := wIn, factor := 1, offset := 0 }] := by decide
    rw [hlinks] at hl
    have hl' : l = { io_1 := wOut, io_2 := wIn, factor := 1, offset := 0 } := by
      simpa using hl
    subst hl'
    unfold SatLink zeroAssign
    norm_num
  · intro bus hbus i hi
    have hnames : wModel.busNames = ["bus"] := by decide
    rw [hnames] at hbus
    have hb' : bus = "bus" := by simpa using hbus
    subst hb'
    unfold SatBus
    have hin : busInputs wModel "bus" =
        [{ bus_name := "bus", io := wOut, is_input := true, factor := 1,
           offset := 0 }] := by decide
    have hout : busOutputs wModel "bus" =
        [{ bus_name := "bus", io := wIn, is_input := false, factor := 1,
           offset := 0 }] := by decide
    rw [hin, hout]
    unfold zeroAssign
    norm_num

/-- C9 counterexample: in the `use_2_three_components_model` tutorial
model, the bus `bus` is registered through `add_component` but the keys of
`get_results(as_dataframe=False)` are only the five non-bus component
names plus `time` — so the keys are not the registered component names
plus `time`. -/
theorem claim9_keys_counterexample :
    ¬ (resultsKeys (getResults use2Model (use2Model.solve okBackend)) =
        use2Model.registeredNames ++ ["time"]) := by
  decide

/-- C9 (amended): after a solve, `get_results(as_dataframe=False)` returns
a mapping whose keys are exactly the registered non-bus component names
plus the extra key `time` holding the committed time-index sequence, each
component name mapping to a per-port mapping of committed value sequences;
`get_results(as_dataframe=True)` returns one flat table whose columns are
named `componentname_portname`. -/
theorem claim9_results_shape (m : Eesrep) (o : SolveOutcome) :
    resultsKeys (getResults m o) = nonBusNames m ++ ["time"] ∧
    ((getResultsDf m o).map fun p => p.1) =
      (m.components.flatMap fun c =>
        c.ios.map fun io => c.name ++ "_" ++ io.io_name) ∧
    (getResults m o).per_component =
      (m.components.map fun c =>
        (c.name, c.ios.map fun io => (io.io_name, getResultsValues m o io))) ∧
    (getResults m o).time = timeIndices m.time_range := by
  refine ⟨?_, ?_, rfl, rfl⟩
  · unfold resultsKeys getResults nonBusNames
    simp only [List.map_map]
    have hmap : (m.components.map ((fun p => p.1) ∘ fun c =>
        (c.name, c.ios.map fun io => (io.io_name, getResultsValues m o io)))) =
        m.components.map fun c => c.name := by
      refine List.map_congr_left ?_
      intro c _
      rfl
    rw [hmap]
    unfold Eesrep.components
    rw [components_names m.registered]
  · unfold getResultsDf
    rw [List.map_flatMap]
    refine congrArg _ ?_
    funext c
    rw [List.map_map]
    refine List.map_congr_left ?_
    intro io _
    rfl
